import Mathlib

/-!
Verification of the pinhole ASCII-video codebase.

Shallow embedding of the Rust sources:
* `common/src/ascii_frame.rs` and `client/src/ascii_renderer.rs` — the
  wire (de)serialization of ASCII frames;
* `server/src/sessions.rs` — the session manager and its secondary indexes;
* `client/src/edge_detector.rs` and `client/src/ascii_converter.rs` — the
  Sobel / non-maximum-suppression pipeline and the ASCII converter.

Machine integers (`usize`, `u8`) are modelled as `Nat`; `f32` values are
modelled as exact rationals `ℚ` (the algorithmic structure — guards,
binning, clamping, indexing — is the object of the claims; `f32` rounding
is not modelled).  `HashMap`s are modelled as association lists with
insert-replaces semantics; iteration order of `HashMap::keys` is the list
order.  Fallible Rust functions return `Except`; a Rust panic is modelled
by a distinguished error constructor.
-/

namespace Pinhole

/-! ## Wire format: `ascii_frame.rs` and `ascii_renderer.rs` -/

/-- `usize::to_be_bytes` (8-byte big-endian encoding), each byte a `Nat < 256`. -/
def toBeBytes8 (n : Nat) : List Nat :=
  [n / 256 ^ 7 % 256, n / 256 ^ 6 % 256, n / 256 ^ 5 % 256, n / 256 ^ 4 % 256,
   n / 256 ^ 3 % 256, n / 256 ^ 2 % 256, n / 256 % 256, n % 256]

/-- `usize::from_be_bytes` on an 8-byte slice (the callers always pass
exactly 8 bytes, copied out of the datagram). -/
def fromBeBytes8 (bs : List Nat) : Nat :=
  match bs with
  | [b0, b1, b2, b3, b4, b5, b6, b7] =>
      b0 * 256 ^ 7 + b1 * 256 ^ 6 + b2 * 256 ^ 5 + b3 * 256 ^ 4 +
      b4 * 256 ^ 3 + b5 * 256 ^ 2 + b6 * 256 + b7
  | _ => 0

/-- `AsciiFrame` (`common/src/ascii_frame.rs`): a `w × h` character grid,
row-major. -/
structure AsciiFrame where
  w : Nat
  h : Nat
  chars : List Char
deriving DecidableEq

/-- Outcomes of the deserialization path.  `shortHeader` is the
`"frame too small (size header too small)"` error of
`AsciiRenderer::process_datagram`; `zeroDims` and `shortBody` are the two
`Err` returns of `AsciiFrame::from_bytes` (`"dimensions must be greater
than zero"` and `"not enough data"`); `panicked` models the Rust panic
raised by `copy_from_slice` in `from_bytes` when the source and
destination slices have different lengths — an abnormal termination, not
a returned `Err`. -/
inductive FrameError where
  | shortHeader
  | zeroDims
  | shortBody
  | panicked
deriving DecidableEq

/-- `AsciiFrame::from_bytes`.  The Rust body allocates `chars = vec![' '; w*h]`,
maps every input byte through `b as char`, and then runs
`chars.copy_from_slice(&ascii)`; that copy succeeds (yielding exactly the
mapped bytes) iff `bytes.len() = w*h`, and panics otherwise — which, after
the `bytes.len() < w*h` guard, means it panics exactly when trailing bytes
are present. -/
def AsciiFrame.fromBytes (w h : Nat) (bytes : List Nat) : Except FrameError AsciiFrame :=
  if w = 0 ∨ h = 0 then .error .zeroDims
  else if bytes.length < w * h then .error .shortBody
  else if bytes.length = w * h then
    .ok { w := w, h := h, chars := bytes.map Char.ofNat }
  else .error .panicked

/-- `AsciiFrame::bytes`: each cell is pushed as `c as u8`, i.e. the low
8 bits of the character's code point. -/
def AsciiFrame.bytes (f : AsciiFrame) : List Nat :=
  f.chars.map (fun c => c.toNat % 256)

/-- `AsciiRenderer::serialize_frame`: big-endian 8-byte width, 8-byte
height, then the cell bytes. -/
def serializeFrame (f : AsciiFrame) : List Nat :=
  toBeBytes8 f.w ++ toBeBytes8 f.h ++ f.bytes

/-- `AsciiRenderer::process_datagram`: reject datagrams shorter than 16
bytes, decode `w` from bytes 0..8 and `h` from bytes 8..16, and hand the
rest to `AsciiFrame::from_bytes`. -/
def processDatagram (datagram : List Nat) : Except FrameError AsciiFrame :=
  if datagram.length < 16 then .error .shortHeader
  else
    AsciiFrame.fromBytes (fromBeBytes8 (datagram.take 8))
      (fromBeBytes8 ((datagram.drop 8).take 8)) (datagram.drop 16)

theorem fromBeBytes8_toBeBytes8 (n : Nat) (hn : n < 2 ^ 64) :
    fromBeBytes8 (toBeBytes8 n) = n := by
  simp only [toBeBytes8, fromBeBytes8]
  omega

theorem map_ofNat_bytes (cs : List Char)
    (h : ∀ c ∈ cs, 0x20 ≤ c.toNat ∧ c.toNat ≤ 0x7E) :
    (cs.map (fun c => c.toNat % 256)).map Char.ofNat = cs := by
  induction cs with
  | nil => rfl
  | cons c cs ih =>
      have hc := h c (List.mem_cons_self c cs)
      have hrest : ∀ x ∈ cs, 0x20 ≤ x.toNat ∧ x.toNat ≤ 0x7E := by
        intro x hx
        exact h x (List.mem_cons_of_mem c hx)
      have hlt : c.toNat < 256 := by omega
      simp [Nat.mod_eq_of_lt hlt, Char.ofNat_toNat, ih hrest]

/-- C1: for every ASCII frame with positive dimensions (representable in
the 8-byte header) whose cell grid has exactly `w*h` characters all in
the printable range `0x20`–`0x7E`, deserializing the serialization
succeeds and returns a frame with the same width, height and
cell-for-cell identical character grid. -/
theorem serialize_roundtrip (f : AsciiFrame)
    (hw : 0 < f.w) (hh : 0 < f.h) (hw64 : f.w < 2 ^ 64) (hh64 : f.h < 2 ^ 64)
    (hlen : f.chars.length = f.w * f.h)
    (hascii : ∀ c ∈ f.chars, 0x20 ≤ c.toNat ∧ c.toNat ≤ 0x7E) :
    processDatagram (serializeFrame f) = .ok f := by
  obtain ⟨w, h, cs⟩ := f
  simp only at hw hh hw64 hh64 hlen hascii
  have hbytes : (AsciiFrame.bytes ⟨w, h, cs⟩).length = w * h := by
    simpa [AsciiFrame.bytes] using hlen
  have htake : (serializeFrame ⟨w, h, cs⟩).take 8 = toBeBytes8 w := rfl
  have htake2 : ((serializeFrame ⟨w, h, cs⟩).drop 8).take 8 = toBeBytes8 h := rfl
  have hdrop : (serializeFrame ⟨w, h, cs⟩).drop 16 = AsciiFrame.bytes ⟨w, h, cs⟩ := rfl
  have hlength : (serializeFrame ⟨w, h, cs⟩).length = 16 + w * h := by
    simp [serializeFrame, toBeBytes8, hbytes]
    omega
  rw [processDatagram, htake, htake2, hdrop, hlength,
    fromBeBytes8_toBeBytes8 w hw64, fromBeBytes8_toBeBytes8 h hh64]
  rw [if_neg (by omega)]
  rw [AsciiFrame.fromBytes, if_neg (by omega), if_neg (by omega), if_pos hbytes]
  simp [AsciiFrame.bytes, map_ofNat_bytes cs hascii]

theorem serialize_roundtrip_witness :
    processDatagram (serializeFrame ⟨4, 2, "ABCDEFGH".toList⟩) =
      .ok ⟨4, 2, "ABCDEFGH".toList⟩ :=
  serialize_roundtrip ⟨4, 2, "ABCDEFGH".toList⟩ (by decide) (by decide)
    (by norm_num) (by norm_num) (by decide) (by decide)

/-- C8: a datagram shorter than 16 bytes is rejected with the
short-header error; a datagram of length at least 16 whose decoded
positive dimensions `W, H` satisfy `length < 16 + W*H` is rejected with
the short-body error.  In both cases no frame is produced. -/
theorem short_datagram_rejected :
    (∀ dg : List Nat, dg.length < 16 →
      processDatagram dg = .error .shortHeader) ∧
    (∀ dg : List Nat, 16 ≤ dg.length →
      0 < fromBeBytes8 (dg.take 8) →
      0 < fromBeBytes8 ((dg.drop 8).take 8) →
      dg.length < 16 + fromBeBytes8 (dg.take 8) * fromBeBytes8 ((dg.drop 8).take 8) →
      processDatagram dg = .error .shortBody) := by
  constructor
  · intro dg hlen
    simp [processDatagram, hlen]
  · intro dg hlen hw hh hshort
    have hdroplen : (dg.drop 16).length = dg.length - 16 := List.length_drop 16 dg
    rw [processDatagram, if_neg (by omega), AsciiFrame.fromBytes,
      if_neg (by omega), if_pos (by omega)]

theorem short_datagram_rejected_witness :
    processDatagram (List.replicate 15 0) = .error .shortHeader ∧
    processDatagram (toBeBytes8 1 ++ toBeBytes8 1) = .error .shortBody :=
  ⟨short_datagram_rejected.1 (List.replicate 15 0) (by decide),
   short_datagram_rejected.2 (toBeBytes8 1 ++ toBeBytes8 1) (by decide)
     (by decide) (by decide) (by decide)⟩

/-- C2 (failing input): an 18-byte datagram with `W = H = 1` and two body
bytes satisfies `length ≥ 16 + W*H` with one trailing byte, yet
deserialization does not succeed and ignore the trailing byte — the
`copy_from_slice` call in `AsciiFrame::from_bytes` panics because its
source slice (2 bytes) and destination (`w*h = 1` characters) have
different lengths. -/
theorem trailing_bytes_panic :
    processDatagram (toBeBytes8 1 ++ toBeBytes8 1 ++ [65, 66]) =
      .error .panicked := by rfl

/-! ## Session manager: `server/src/sessions.rs`

The `SessionManager` wraps an `Inner` behind a `RwLock`; each `async`
method takes the lock, mutates `Inner`, and releases it.  The lock is the
atomicity boundary, so the operations are modelled as pure functions on
`Inner`.  `HashMap`s become association lists (`assocGet` / `assocInsert`
/ `assocRemove`, with insert-replaces semantics and at most one binding
per key); the arbitrary iteration order of `HashMap::keys` in
`map_udp_to_tcp` becomes the list order.  The `mpsc::UnboundedSender`
notify handles carried next to each member's address are not modelled:
none of the verified operations depends on their identity. -/

/-- `std::net::SocketAddr`, reduced to its host (`.ip()`) and port. -/
structure SocketAddr where
  ip : Nat
  port : Nat
deriving DecidableEq

def assocGet {α β : Type} [DecidableEq α] (l : List (α × β)) (k : α) : Option β :=
  match l with
  | [] => none
  | (k', v) :: rest => if k' = k then some v else assocGet rest k

def assocInsert {α β : Type} [DecidableEq α] (l : List (α × β)) (k : α) (v : β) :
    List (α × β) :=
  match l with
  | [] => [(k, v)]
  | (k', v') :: rest =>
      if k' = k then (k, v) :: rest else (k', v') :: assocInsert rest k v

def assocRemove {α β : Type} [DecidableEq α] (l : List (α × β)) (k : α) :
    Option β × List (α × β) :=
  match l with
  | [] => (none, [])
  | (k', v') :: rest =>
      if k' = k then (some v', rest)
      else
        let r := assocRemove rest k
        (r.1, (k', v') :: r.2)

/-- `Session`: two member slots, their learned UDP addresses, and the
one-shot `CONNECTED` latch. -/
structure Session where
  id : String
  clientA : Option SocketAddr
  clientB : Option SocketAddr
  udpA : Option SocketAddr
  udpB : Option SocketAddr
  connectedNotified : Bool
deriving DecidableEq

def Session.new (id : String) : Session :=
  { id := id, clientA := none, clientB := none, udpA := none, udpB := none,
    connectedNotified := false }

/-- `Session::add_client`: fill slot A if empty, else slot B, else fail. -/
def Session.addClient (s : Session) (addr : SocketAddr) : Session × Bool :=
  match s.clientA, s.clientB with
  | none, _ => ({ s with clientA := some addr }, true)
  | _, none => ({ s with clientB := some addr }, true)
  | _, _ => (s, false)

/-- `Session::register_udp`. -/
def Session.registerUdp (s : Session) (tcpAddr udpAddr : SocketAddr) : Session :=
  if s.clientA = some tcpAddr then { s with udpA := some udpAddr }
  else if s.clientB = some tcpAddr then { s with udpB := some udpAddr }
  else s

/-- `Session::get_peer_udp`. -/
def Session.getPeerUdp (s : Session) (tcpAddr : SocketAddr) : Option SocketAddr :=
  if s.clientA = some tcpAddr then s.udpB
  else if s.clientB = some tcpAddr then s.udpA
  else none

/-- `Session::remove_client`. -/
def Session.removeClient (s : Session) (addr : SocketAddr) : Session :=
  if s.clientA = some addr then { s with clientA := none, udpA := none }
  else if s.clientB = some addr then { s with clientB := none, udpB := none }
  else s

/-- `Session::is_empty`. -/
def Session.isEmpty (s : Session) : Bool :=
  s.clientA.isNone && s.clientB.isNone

/-- The state behind the `SessionManager`'s lock (`struct Inner`). -/
structure Inner where
  sessions : List (String × Session)
  clientSessions : List (SocketAddr × String)
  udpToTcp : List (SocketAddr × SocketAddr)
deriving DecidableEq

/-- `SessionManager::ensure_session` (`entry(id).or_insert_with`). -/
def Inner.ensureSession (inner : Inner) (id : String) : Inner :=
  match assocGet inner.sessions id with
  | some _ => inner
  | none => { inner with sessions := assocInsert inner.sessions id (Session.new id) }

/-- `SessionManager::add_client`. -/
def Inner.addClient (inner : Inner) (sessionId : String) (tcpAddr : SocketAddr) :
    Inner × Bool :=
  match assocGet inner.sessions sessionId with
  | none => (inner, false)
  | some s =>
      let r := s.addClient tcpAddr
      if r.2 then
        ({ inner with
            sessions := assocInsert inner.sessions sessionId r.1,
            clientSessions := assocInsert inner.clientSessions tcpAddr sessionId },
          true)
      else (inner, false)

/-- `SessionManager::register_udp` (the `REGISTER_UDP` path). -/
def Inner.registerUdp (inner : Inner) (tcp udp : SocketAddr) : Inner :=
  match assocGet inner.clientSessions tcp with
  | none => inner
  | some id =>
      match assocGet inner.sessions id with
      | none => inner
      | some s =>
          { inner with
              sessions := assocInsert inner.sessions id (s.registerUdp tcp udp),
              udpToTcp := assocInsert inner.udpToTcp udp tcp }

/-- `SessionManager::get_peer_udp` (`peer_unreliable_of`): chase
`udp_to_tcp`, then `client_sessions`, then the session's slots. -/
def Inner.getPeerUdp (inner : Inner) (udpSrc : SocketAddr) : Option SocketAddr := do
  let tcp ← assocGet inner.udpToTcp udpSrc
  let id ← assocGet inner.clientSessions tcp
  let s ← assocGet inner.sessions id
  s.getPeerUdp tcp

/-- `SessionManager::remove_client`: drop the reverse index entry, remove
the member from its session, and garbage-collect the session when it
becomes empty.  `udp_to_tcp` is not touched. -/
def Inner.removeClient (inner : Inner) (tcp : SocketAddr) : Inner :=
  let r := assocRemove inner.clientSessions tcp
  match r.1 with
  | none => { inner with clientSessions := r.2 }
  | some id =>
      match assocGet inner.sessions id with
      | none => { inner with clientSessions := r.2 }
      | some s =>
          let s' := s.removeClient tcp
          if s'.isEmpty then
            { inner with
                clientSessions := r.2
                sessions := (assocRemove inner.sessions id).2 }
          else
            { inner with
                clientSessions := r.2
                sessions := assocInsert inner.sessions id s' }

/-- `SessionManager::mark_connected`. -/
def Inner.markConnected (inner : Inner) (id : String) : Inner :=
  match assocGet inner.sessions id with
  | none => inner
  | some s =>
      { inner with
          sessions := assocInsert inner.sessions id { s with connectedNotified := true } }

/-- The per-member test of `map_udp_to_tcp`
(`unregistered_a || unregistered_b`): `tcp` occupies a slot of `s` whose
UDP address is still empty. -/
def Session.unregisteredSlot (s : Session) (tcp : SocketAddr) : Bool :=
  (s.clientA == some tcp && s.udpA.isNone) || (s.clientB == some tcp && s.udpB.isNone)

/-- The `find` predicate of `map_udp_to_tcp`, applied to a
`client_sessions` entry (a key together with its stored session id). -/
def udpCandidateP (sessions : List (String × Session)) (p : SocketAddr × String) : Bool :=
  match assocGet sessions p.2 with
  | some s => s.unregisteredSlot p.1
  | none => false

/-- The members `map_udp_to_tcp` scans and would accept for `udpSrc`:
`client_sessions` entries whose host equals the source host and whose
session slot has no UDP address yet. -/
def Inner.candidates (inner : Inner) (udpSrc : SocketAddr) : List (SocketAddr × String) :=
  (inner.clientSessions.filter (fun p => p.1.ip == udpSrc.ip)).filter
    (udpCandidateP inner.sessions)

/-- `SessionManager::map_udp_to_tcp` (`bind_unreliable`): return at once
when the source is already bound; otherwise scan `client_sessions` (in
iteration order) for the first member with the same host and an empty UDP
slot, and bind it.  The inner `none` session branch is unreachable — the
`find` predicate only accepts entries whose session exists (the Rust code
expresses this with `.unwrap()`). -/
def Inner.mapUdpToTcp (inner : Inner) (udpSrc : SocketAddr) : Inner :=
  if (assocGet inner.udpToTcp udpSrc).isSome then inner
  else
    match (inner.clientSessions.filter (fun p => p.1.ip == udpSrc.ip)).find?
        (udpCandidateP inner.sessions) with
    | none => inner
    | some (tcpAddr, sId) =>
        match assocGet inner.sessions sId with
        | none => inner
        | some s =>
            { inner with
                sessions := assocInsert inner.sessions sId (s.registerUdp tcpAddr udpSrc),
                udpToTcp := assocInsert inner.udpToTcp udpSrc tcpAddr }

theorem assocGet_assocInsert_ne {α β : Type} [DecidableEq α] (l : List (α × β))
    (j k : α) (v : β) (h : j ≠ k) :
    assocGet (assocInsert l j v) k = assocGet l k := by
  induction l with
  | nil => simp [assocInsert, assocGet, h]
  | cons p rest ih =>
      obtain ⟨a, b⟩ := p
      by_cases ha : a = j
      · subst ha
        simp [assocInsert, assocGet, h]
      · simp [assocInsert, assocGet, ha, ih]

theorem find?_eq_none_of_filter_eq_nil {α : Type} (p : α → Bool) (l : List α)
    (h : l.filter p = []) : l.find? p = none := by
  rw [List.find?_eq_none]
  intro x hx hpx
  have hmem : x ∈ l.filter p := List.mem_filter.2 ⟨hx, hpx⟩
  rw [h] at hmem
  exact absurd hmem (List.not_mem_nil x)

/-- C4 (amended): when the unreliable source address is not yet bound and
there is no candidate member at all (no `client_sessions` entry with the
same host and an empty UDP slot), `map_udp_to_tcp` leaves the state —
sessions, slots and both secondary indexes — unchanged.  (The
two-or-more-candidates half of the original claim fails: the code binds
the first candidate; see the counterexample.) -/
theorem map_udp_zero_candidates_noop (inner : Inner) (u : SocketAddr)
    (hnotbound : assocGet inner.udpToTcp u = none)
    (hzero : (inner.candidates u).length = 0) :
    inner.mapUdpToTcp u = inner := by
  have hnil : (inner.clientSessions.filter (fun p => p.1.ip == u.ip)).filter
      (udpCandidateP inner.sessions) = [] := List.length_eq_zero.mp hzero
  have hfind : (inner.clientSessions.filter (fun p => p.1.ip == u.ip)).find?
      (udpCandidateP inner.sessions) = none :=
    find?_eq_none_of_filter_eq_nil _ _ hnil
  rw [Inner.mapUdpToTcp, hnotbound, hfind]
  rfl

/-- Witness state for the amended C4 theorem: one session whose single
member lives on host 1, probed with a datagram from host 2. -/
def c4WitnessInner : Inner :=
  { sessions := [("room", { Session.new "room" with clientA := some ⟨1, 10⟩ })]
    clientSessions := [(⟨1, 10⟩, "room")]
    udpToTcp := [] }

theorem map_udp_zero_candidates_noop_witness :
    assocGet c4WitnessInner.udpToTcp ⟨2, 99⟩ = none ∧
    (c4WitnessInner.candidates ⟨2, 99⟩).length = 0 ∧
    c4WitnessInner.mapUdpToTcp ⟨2, 99⟩ = c4WitnessInner :=
  ⟨by decide, by decide,
   map_udp_zero_candidates_noop c4WitnessInner ⟨2, 99⟩ (by decide) (by decide)⟩

/-- C4 counterexample state: a two-member session whose members share
host 1, both UDP slots empty — two candidates for a datagram from
host 1. -/
def c4TwoCandInner : Inner :=
  { sessions := [("room",
      { Session.new "room" with clientA := some ⟨1, 10⟩, clientB := some ⟨1, 20⟩ })]
    clientSessions := [(⟨1, 10⟩, "room"), (⟨1, 20⟩, "room")]
    udpToTcp := [] }

/-- C4 counterexample: with two candidate members (same host, both UDP
slots empty), `map_udp_to_tcp` does not leave the state unchanged — it
binds the source address to the first candidate in iteration order. -/
theorem map_udp_binds_despite_two_candidates :
    (c4TwoCandInner.candidates ⟨1, 99⟩).length = 2 ∧
    c4TwoCandInner.mapUdpToTcp ⟨1, 99⟩ ≠ c4TwoCandInner ∧
    assocGet (c4TwoCandInner.mapUdpToTcp ⟨1, 99⟩).udpToTcp ⟨1, 99⟩ = some ⟨1, 10⟩ := by
  refine ⟨by decide, ?_, by decide⟩
  intro h
  have : assocGet (c4TwoCandInner.mapUdpToTcp ⟨1, 99⟩).udpToTcp ⟨1, 99⟩ = none := by
    rw [h]; decide
  rw [show assocGet (c4TwoCandInner.mapUdpToTcp ⟨1, 99⟩).udpToTcp ⟨1, 99⟩ =
      some ⟨1, 10⟩ from by decide] at this
  exact Option.noConfusion this

/-- C10 counterexample state: `u = (host 1, port 9)` is already bound to
the reliable address `(2,2)` (its owner has since left), while member
`(1,1)` is present in session `"room"`. -/
def c10Inner : Inner :=
  { sessions := [("room", { Session.new "room" with clientA := some ⟨1, 1⟩ })]
    clientSessions := [(⟨1, 1⟩, "room")]
    udpToTcp := [(⟨1, 9⟩, ⟨2, 2⟩)] }

/-- C10 counterexample: `register_udp` (the `REGISTER_UDP` path) replaces
an existing `udp_to_tcp` entry — the binding of `u` changes from `(2,2)`
to `(1,1)`, so the entry is not immutable for the manager's lifetime. -/
theorem register_udp_overwrites_binding :
    assocGet c10Inner.udpToTcp ⟨1, 9⟩ = some ⟨2, 2⟩ ∧
    assocGet (c10Inner.registerUdp ⟨1, 1⟩ ⟨1, 9⟩).udpToTcp ⟨1, 9⟩ = some ⟨1, 1⟩ ∧
    (⟨1, 1⟩ : SocketAddr) ≠ ⟨2, 2⟩ := by decide

theorem ensureSession_udpToTcp (inner : Inner) (id : String) :
    (inner.ensureSession id).udpToTcp = inner.udpToTcp := by
  rw [Inner.ensureSession]
  cases assocGet inner.sessions id <;> rfl

theorem addClient_udpToTcp (inner : Inner) (id : String) (tcp : SocketAddr) :
    (inner.addClient id tcp).1.udpToTcp = inner.udpToTcp := by
  rw [Inner.addClient]
  cases assocGet inner.sessions id with
  | none => rfl
  | some s =>
      simp only
      split <;> rfl

theorem markConnected_udpToTcp (inner : Inner) (id : String) :
    (inner.markConnected id).udpToTcp = inner.udpToTcp := by
  rw [Inner.markConnected]
  cases assocGet inner.sessions id <;> rfl

theorem removeClient_udpToTcp (inner : Inner) (tcp : SocketAddr) :
    (inner.removeClient tcp).udpToTcp = inner.udpToTcp := by
  rw [Inner.removeClient]
  cases (assocRemove inner.clientSessions tcp).1 with
  | none => rfl
  | some id =>
      simp only
      cases assocGet inner.sessions id with
      | none => rfl
      | some s =>
          simp only
          split <;> rfl

/-- `map_udp_to_tcp` either leaves `udp_to_tcp` unchanged or, when the
source was unbound, inserts a binding for the source address. -/
theorem mapUdpToTcp_udpToTcp (inner : Inner) (u' : SocketAddr) :
    (inner.mapUdpToTcp u').udpToTcp = inner.udpToTcp ∨
    ∃ tcpAddr, assocGet inner.udpToTcp u' = none ∧
      (inner.mapUdpToTcp u').udpToTcp = assocInsert inner.udpToTcp u' tcpAddr := by
  rw [Inner.mapUdpToTcp]
  split
  · left; rfl
  next hcond =>
    split
    · left; rfl
    next tcpAddr sId _ =>
      split
      · left; rfl
      · right
        refine ⟨tcpAddr, ?_, rfl⟩
        simpa [Option.not_isSome_iff_eq_none] using hcond

/-- C10 (amended): once an unreliable address `u` is in `udp_to_tcp`, the
operations `ensure_session`, `add_client`, `mark_connected`,
`remove_client` (even when it destroys `u`'s session) and
`map_udp_to_tcp` (for any source) never remove or change `u`'s entry, and
a later `map_udp_to_tcp(u)` returns with the whole state unmodified.
`register_udp` is the one exception the original claim missed: invoked
for the same unreliable address under a different reliable address it
overwrites the entry (see the counterexample). -/
theorem udp_binding_stable (inner : Inner) (u t : SocketAddr)
    (hbound : assocGet inner.udpToTcp u = some t)
    (id : String) (tcp : SocketAddr) (u' : SocketAddr) :
    assocGet (inner.ensureSession id).udpToTcp u = some t ∧
    assocGet (inner.addClient id tcp).1.udpToTcp u = some t ∧
    assocGet (inner.markConnected id).udpToTcp u = some t ∧
    assocGet (inner.removeClient tcp).udpToTcp u = some t ∧
    assocGet (inner.mapUdpToTcp u').udpToTcp u = some t ∧
    inner.mapUdpToTcp u = inner := by
  refine ⟨?_, ?_, ?_, ?_, ?_, ?_⟩
  · rw [ensureSession_udpToTcp]; exact hbound
  · rw [addClient_udpToTcp]; exact hbound
  · rw [markConnected_udpToTcp]; exact hbound
  · rw [removeClient_udpToTcp]; exact hbound
  · rcases mapUdpToTcp_udpToTcp inner u' with heq | ⟨tcpAddr, hnone, heq⟩
    · rw [heq]; exact hbound
    · have hne : u' ≠ u := by
        intro h
        rw [h, hbound] at hnone
        exact Option.noConfusion hnone
      rw [heq, assocGet_assocInsert_ne _ _ _ _ hne]
      exact hbound
  · rw [Inner.mapUdpToTcp, hbound]
    rfl

/-- Witness state for the amended C10 theorem: `u = (5,5)` is bound to
`(1,1)`, the sole member of session `"room"`. -/
def c10WitnessInner : Inner :=
  { sessions := [("room", { Session.new "room" with clientA := some ⟨1, 1⟩ })]
    clientSessions := [(⟨1, 1⟩, "room")]
    udpToTcp := [(⟨5, 5⟩, ⟨1, 1⟩)] }

theorem udp_binding_stable_witness :
    assocGet (c10WitnessInner.removeClient ⟨1, 1⟩).udpToTcp ⟨5, 5⟩ = some ⟨1, 1⟩ ∧
    c10WitnessInner.mapUdpToTcp ⟨5, 5⟩ = c10WitnessInner :=
  ⟨(udp_binding_stable c10WitnessInner ⟨5, 5⟩ ⟨1, 1⟩ (by decide) "room" ⟨1, 1⟩
      ⟨5, 5⟩).2.2.2.1,
   (udp_binding_stable c10WitnessInner ⟨5, 5⟩ ⟨1, 1⟩ (by decide) "room" ⟨1, 1⟩
      ⟨5, 5⟩).2.2.2.2.2⟩

/-- C7: starting from a session holding members `a` and `b` (indexed in
`client_sessions`, UDP slots empty, nothing bound), after
`bind_unreliable` (`map_udp_to_tcp`) learns `ua` (host of `a`) and then
`ub` (host of `b`), the peer lookup is mutually symmetric:
`peer_unreliable_of(ua) = ub` and `peer_unreliable_of(ub) = ua`. -/
theorem bind_both_peer_symmetric (id : String) (a b ua ub : SocketAddr)
    (hab : a ≠ b) (huab : ua ≠ ub)
    (hipa : ua.ip = a.ip) (hipb : ub.ip = b.ip) :
    (((⟨[(id, ⟨id, some a, some b, none, none, false⟩)],
        [(a, id), (b, id)], []⟩ : Inner).mapUdpToTcp ua).mapUdpToTcp ub).getPeerUdp ua
        = some ub ∧
    (((⟨[(id, ⟨id, some a, some b, none, none, false⟩)],
        [(a, id), (b, id)], []⟩ : Inner).mapUdpToTcp ua).mapUdpToTcp ub).getPeerUdp ub
        = some ua := by
  have hba : b ≠ a := Ne.symm hab
  have h1 : (⟨[(id, ⟨id, some a, some b, none, none, false⟩)],
      [(a, id), (b, id)], []⟩ : Inner).mapUdpToTcp ua
      = ⟨[(id, ⟨id, some a, some b, some ua, none, false⟩)],
        [(a, id), (b, id)], [(ua, a)]⟩ := by
    simp [Inner.mapUdpToTcp, assocGet, List.filter, List.find?, udpCandidateP,
      Session.unregisteredSlot, Session.registerUdp, assocInsert, hipa]
  rw [h1]
  have hfind2 : (([(a, id), (b, id)] : List (SocketAddr × String)).filter
        (fun p => p.1.ip == ub.ip)).find?
        (udpCandidateP [(id, ⟨id, some a, some b, some ua, none, false⟩)])
      = some (b, id) := by
    by_cases hc : a.ip = b.ip
    · simp [List.filter, List.find?, hc, hipb, udpCandidateP, assocGet,
        Session.unregisteredSlot, hba]
    · have hcb : (a.ip == b.ip) = false := by simp [hc]
      simp [List.filter, List.find?, hcb, hipb, udpCandidateP, assocGet,
        Session.unregisteredSlot, hba]
  have h2 : (⟨[(id, ⟨id, some a, some b, some ua, none, false⟩)],
      [(a, id), (b, id)], [(ua, a)]⟩ : Inner).mapUdpToTcp ub
      = ⟨[(id, ⟨id, some a, some b, some ua, some ub, false⟩)],
        [(a, id), (b, id)], [(ua, a), (ub, b)]⟩ := by
    simp [Inner.mapUdpToTcp, hfind2, assocGet, huab, Session.registerUdp, hab,
      assocInsert]
  rw [h2]
  constructor
  · simp [Inner.getPeerUdp, assocGet, Session.getPeerUdp]
  · simp [Inner.getPeerUdp, assocGet, Session.getPeerUdp, huab, hab, hba]

theorem bind_both_peer_symmetric_witness :
    (((⟨[("room", ⟨"room", some ⟨1, 1⟩, some ⟨2, 2⟩, none, none, false⟩)],
        [(⟨1, 1⟩, "room"), (⟨2, 2⟩, "room")], []⟩ : Inner).mapUdpToTcp
          ⟨1, 5⟩).mapUdpToTcp ⟨2, 6⟩).getPeerUdp ⟨1, 5⟩ = some ⟨2, 6⟩ ∧
    (((⟨[("room", ⟨"room", some ⟨1, 1⟩, some ⟨2, 2⟩, none, none, false⟩)],
        [(⟨1, 1⟩, "room"), (⟨2, 2⟩, "room")], []⟩ : Inner).mapUdpToTcp
          ⟨1, 5⟩).mapUdpToTcp ⟨2, 6⟩).getPeerUdp ⟨2, 6⟩ = some ⟨1, 5⟩ :=
  bind_both_peer_symmetric "room" ⟨1, 1⟩ ⟨2, 2⟩ ⟨1, 5⟩ ⟨2, 6⟩
    (by decide) (by decide) (by decide) (by decide)

/-! ## Image pipeline: `image_frame.rs`, `edge_detector.rs`, `ascii_converter.rs`

`f32` values are modelled as exact rationals; the claims settled here are
about the pipeline's discrete structure (guards, orientation bins,
clamping, indexing), not about `f32` rounding.  `f32::sqrt` and
`f32::atan2` have no rational counterpart and are passed as parameters
(`FloatOps`); the proofs constrain them only at `0`, where the `f32`
functions are exact.  `f32::to_degrees` multiplies by the `f32` constant
`180.0 / consts::PI`, whose exact value is the dyadic rational
`469367 / 8192`.  The `Vec<f32>`-producing loops write each index exactly
once (`result[y*w + x] = …` over disjoint indexes), so they are embedded
as index maps over `List.range (w*h)` with `x = i % w`, `y = i / w`. -/

/-- Exact value of the `f32` computation `180.0 / std::f32::consts::PI`,
the factor applied by `f32::to_degrees`. -/
def degPerRad : ℚ := 469367 / 8192

def toDegrees (a : ℚ) : ℚ := a * degPerRad

/-- Truncation toward zero, `q.trunc`. -/
def ratTrunc (q : ℚ) : ℤ :=
  if 0 ≤ q then ⌊q⌋ else -⌊-q⌋

/-- Rust `%` on floats: `a - b * (a / b).trunc()`, the remainder taking
the dividend's sign. -/
def rustRem (a b : ℚ) : ℚ := a - b * ratTrunc (a / b)

/-- `value as usize` on an `f32`: truncation toward zero, negative values
saturating to 0 (every use here is far below the upper saturation bound). -/
def ratToUsize (q : ℚ) : Nat := (⌊q⌋).toNat

/-- `value as u8` on an `f32`: truncation toward zero with saturation. -/
def ratToU8 (q : ℚ) : Nat := min ((⌊q⌋).toNat) 255

/-- Rec. 601 luma coefficients (`ascii_converter.rs`). -/
def R_LUMINANCE : ℚ := 2989 / 10000

def G_LUMINANCE : ℚ := 5870 / 10000

def B_LUMINANCE : ℚ := 1140 / 10000

/-- `ImageFrame` (`image_frame.rs`): raw RGB frame. -/
structure ImageFrame where
  w : Nat
  h : Nat
  bytesPerPixel : Nat
  buffer : List Nat

/-- `ImageFrame::get_pixel`, with its two bounds checks. -/
def ImageFrame.getPixel (frame : ImageFrame) (x y : Nat) : Option (Nat × Nat × Nat) :=
  if x ≥ frame.w ∨ y ≥ frame.h then none
  else
    let i := (y * frame.w + x) * frame.bytesPerPixel
    if i + 2 ≥ frame.buffer.length then none
    else some (frame.buffer.getD i 0, frame.buffer.getD (i + 1) 0, frame.buffer.getD (i + 2) 0)

/-- `ImageFrame::calculate_intensity`. -/
def calculateIntensity (rgb : Nat × Nat × Nat) : ℚ :=
  R_LUMINANCE * rgb.1 + G_LUMINANCE * rgb.2.1 + B_LUMINANCE * rgb.2.2

/-- `ImageFrame::calculate_intensity_u8` (`as u8` cast of the luma). -/
def calculateIntensityU8 (rgb : Nat × Nat × Nat) : Nat :=
  ratToU8 (calculateIntensity rgb)

/-- The `f32` operations the detector uses that have no exact rational
counterpart. -/
structure FloatOps where
  sqrt : ℚ → ℚ
  atan2 : ℚ → ℚ → ℚ

/-- `EdgeDetector::create_intensity_map`: luma per pixel, `0.0` where
`get_pixel` returns `None`. -/
def createIntensityMap (frame : ImageFrame) : List ℚ :=
  (List.range (frame.w * frame.h)).map fun i =>
    match frame.getPixel (i % frame.w) (i / frame.w) with
    | some rgb => calculateIntensity rgb
    | none => 0

/-- `EdgeDetector::sobel`, `Gx` component: interior pixels (the loops run
`y in 1..h-1`, `x in 1..w-1`) get the 3×3 kernel sum, border pixels keep
their `0.0` initialization. -/
def sobelGx (intensity : List ℚ) (w h : Nat) : List ℚ :=
  (List.range (w * h)).map fun i =>
    let x := i % w
    let y := i / w
    if 1 ≤ x ∧ x + 1 < w ∧ 1 ≤ y ∧ y + 1 < h then
      -1 * intensity.getD ((y - 1) * w + (x - 1)) 0 +
      1 * intensity.getD ((y - 1) * w + (x + 1)) 0 +
      -2 * intensity.getD (y * w + (x - 1)) 0 +
      2 * intensity.getD (y * w + (x + 1)) 0 +
      -1 * intensity.getD ((y + 1) * w + (x - 1)) 0 +
      1 * intensity.getD ((y + 1) * w + (x + 1)) 0
    else 0

/-- `EdgeDetector::sobel`, `Gy` component. -/
def sobelGy (intensity : List ℚ) (w h : Nat) : List ℚ :=
  (List.range (w * h)).map fun i =>
    let x := i % w
    let y := i / w
    if 1 ≤ x ∧ x + 1 < w ∧ 1 ≤ y ∧ y + 1 < h then
      -1 * intensity.getD ((y - 1) * w + (x - 1)) 0 +
      -2 * intensity.getD ((y - 1) * w + x) 0 +
      -1 * intensity.getD ((y - 1) * w + (x + 1)) 0 +
      1 * intensity.getD ((y + 1) * w + (x - 1)) 0 +
      2 * intensity.getD ((y + 1) * w + x) 0 +
      1 * intensity.getD ((y + 1) * w + (x + 1)) 0
    else 0

/-- `EdgeDetector::non_maximum_suppression`: border pixels keep their
`0.0` initialization; an interior pixel below the threshold is skipped
(stays `0.0`), otherwise the angle is normalized by
`(to_degrees + 180.0) % 180.0`, binned, and the pixel survives iff its
magnitude is `>=` both bin neighbors (the neighbor coordinate checks
`nx < w && ny < h` mirror the source). -/
def nonMaximumSuppression (magnitude angle : List ℚ) (w h : Nat) (threshold : ℚ) :
    List ℚ :=
  (List.range (w * h)).map fun i =>
    let x := i % w
    let y := i / w
    if 1 ≤ x ∧ x + 1 < w ∧ 1 ≤ y ∧ y + 1 < h then
      if magnitude.getD i 0 < threshold then 0
      else
        let angleDeg := rustRem (toDegrees (angle.getD i 0) + 180) 180
        let n :=
          if (0 ≤ angleDeg ∧ angleDeg < 22.5) ∨ (157.5 ≤ angleDeg ∧ angleDeg < 180) then
            ((x + 1, y), (x - 1, y))
          else if 22.5 ≤ angleDeg ∧ angleDeg < 67.5 then
            ((x + 1, y - 1), (x - 1, y + 1))
          else if 67.5 ≤ angleDeg ∧ angleDeg < 112.5 then
            ((x, y - 1), (x, y + 1))
          else
            ((x - 1, y - 1), (x + 1, y + 1))
        let n1 := if n.1.1 < w ∧ n.1.2 < h then magnitude.getD (n.1.2 * w + n.1.1) 0 else 0
        let n2 := if n.2.1 < w ∧ n.2.2 < h then magnitude.getD (n.2.2 * w + n.2.1) 0 else 0
        if n1 ≤ magnitude.getD i 0 ∧ n2 ≤ magnitude.getD i 0 then magnitude.getD i 0
        else 0
    else 0

/-- `EdgeDetector::process_frame`: intensity map, Sobel, per-pixel
magnitude `sqrt(gx²+gy²)` and angle `atan2(gy, gx)`, then non-maximum
suppression of the magnitudes. -/
def EdgeDetector.processFrame (ops : FloatOps) (frame : ImageFrame) (threshold : ℚ) :
    List ℚ × List ℚ :=
  let intensity := createIntensityMap frame
  let gx := sobelGx intensity frame.w frame.h
  let gy := sobelGy intensity frame.w frame.h
  let magnitude := (List.range (frame.w * frame.h)).map fun i =>
    ops.sqrt (gx.getD i 0 * gx.getD i 0 + gy.getD i 0 * gy.getD i 0)
  let angle := (List.range (frame.w * frame.h)).map fun i =>
    ops.atan2 (gy.getD i 0) (gx.getD i 0)
  (nonMaximumSuppression magnitude angle frame.w frame.h threshold, angle)

/-- The mutable pieces of `EdgeDetector` shared state relevant to
`submit_frame` (the `Arc<Mutex<…>>` cells, taken at a quiescent point). -/
structure EdgeDetectorState where
  w : Nat
  h : Nat
  threshold : ℚ
  frameBuffer : List Nat
  newFrameAvailable : Bool
deriving DecidableEq

/-- `EdgeDetector::submit_frame`: clear the shared buffer, copy the
frame's bytes in, raise the new-frame flag, and return `Ok(())` — the
function performs no dimension comparison of any kind. -/
def EdgeDetectorState.submitFrame (d : EdgeDetectorState) (frame : ImageFrame) :
    Except String EdgeDetectorState :=
  .ok { d with frameBuffer := frame.buffer, newFrameAvailable := true }

/-- `EdgeInfo` as read back by `get_edge_info`. -/
structure EdgeInfo where
  magnitude : List ℚ
  angle : List ℚ
  w : Nat
  h : Nat

/-- `AsciiConverter` configuration (the embedded edge detector handle is
not part of the conversion math). -/
structure AsciiConverter where
  asciiIntensity : List Char
  asciiHorizontal : List Char
  asciiVertical : List Char
  asciiForward : List Char
  asciiBack : List Char
  edgeThreshold : ℚ
  contrast : ℚ
  brightness : ℚ

/-- `AsciiConverter::default()`: the shipped glyph families and tuning
(`new` receives horizontal before vertical, matching `default()`'s
argument order). -/
def AsciiConverter.default : AsciiConverter :=
  { asciiIntensity := [' ', '.', ':', 'c', 'o', 'P', 'O', '?', '@', '■']
    asciiHorizontal := ['|', '│', '┃']
    asciiVertical := ['-', '━', '═']
    asciiForward := ['/', '╱', '⟋']
    asciiBack := ['\\', '╲', '⟍']
    edgeThreshold := 20
    contrast := 1.5
    brightness := 0 }

/-- One channel of `AsciiConverter::adjust_pixel`: normalize to `[0,1]`,
apply contrast then brightness, clamp by `.max(0.0).min(1.0)`, scale back
to `0..=255` and cast. -/
def AsciiConverter.adjustChannel (conv : AsciiConverter) (value : Nat) : Nat :=
  ratToU8 (min (max (((value : ℚ) / 255 - 0.5) * conv.contrast + 0.5 + conv.brightness) 0) 1 * 255)

/-- `AsciiConverter::adjust_pixel`. -/
def AsciiConverter.adjustPixel (conv : AsciiConverter) (rgb : Nat × Nat × Nat) :
    Nat × Nat × Nat :=
  (conv.adjustChannel rgb.1, conv.adjustChannel rgb.2.1, conv.adjustChannel rgb.2.2)

/-- `AsciiConverter::angle_to_edge`: normalize the angle by
`((to_degrees % 180.0) + 180.0) % 180.0`, compute one index from the
magnitude against the *horizontal* family's length
(`(magnitude/255 * horizontal.len()).min(horizontal.len()-1) as usize`),
then select the binned family, re-clamping the index to that family's
length.  `getD`'s default is never reached: the index is clamped below
each family's length (families are nonempty in every use). -/
def AsciiConverter.angleToEdge (conv : AsciiConverter) (angle magnitude : ℚ) : Char :=
  let angleD := rustRem (rustRem (toDegrees angle) 180 + 180) 180
  let charI := ratToUsize
    (min ((magnitude / 255) * (conv.asciiHorizontal.length : ℚ))
      ((conv.asciiHorizontal.length - 1 : Nat) : ℚ))
  if (0 ≤ angleD ∧ angleD < 22.5) ∨ (157.5 ≤ angleD ∧ angleD < 180) then
    conv.asciiHorizontal.getD (min charI (conv.asciiHorizontal.length - 1)) ' '
  else if 22.5 ≤ angleD ∧ angleD < 67.5 then
    conv.asciiForward.getD (min charI (conv.asciiForward.length - 1)) ' '
  else if 67.5 ≤ angleD ∧ angleD < 112.5 then
    conv.asciiVertical.getD (min charI (conv.asciiVertical.length - 1)) ' '
  else
    conv.asciiBack.getD (min charI (conv.asciiBack.length - 1)) ' '

/-- `AsciiConverter::convert`, given the `EdgeInfo` the detector returned
for the submitted frame: per output cell, nearest-neighbor source
coordinates, edge glyph when the (clamped-index) magnitude exceeds the
threshold, shading glyph otherwise; a cell whose source pixel is out of
bounds keeps the output frame's previous character (`set_char` is not
called).  The cell loops write each `y*w + x` exactly once, embedded as
an index map. -/
def AsciiConverter.convert (conv : AsciiConverter) (iFrame : ImageFrame)
    (edgeInfo : EdgeInfo) (aFrame : AsciiFrame) : AsciiFrame :=
  let scaleX : ℚ := (iFrame.w : ℚ) / (aFrame.w : ℚ)
  let scaleY : ℚ := (iFrame.h : ℚ) / (aFrame.h : ℚ)
  { aFrame with
      chars := (List.range (aFrame.w * aFrame.h)).map fun idx =>
        let x := idx % aFrame.w
        let y := idx / aFrame.w
        let iX := ratToUsize ((x : ℚ) * scaleX)
        let iY := ratToUsize ((y : ℚ) * scaleY)
        let eI := min iY (edgeInfo.h - 1) * edgeInfo.w + min iX (edgeInfo.w - 1)
        if eI < edgeInfo.magnitude.length ∧
            conv.edgeThreshold < edgeInfo.magnitude.getD eI 0 then
          conv.angleToEdge (edgeInfo.angle.getD eI 0) (edgeInfo.magnitude.getD eI 0)
        else
          match iFrame.getPixel iX iY with
          | some rgb =>
              let rgbAdj := conv.adjustPixel rgb
              let intensity := calculateIntensityU8 rgbAdj
              let charI := min
                (ratToUsize ((intensity : ℚ) / 255 * (conv.asciiIntensity.length : ℚ)))
                (conv.asciiIntensity.length - 1)
              conv.asciiIntensity.getD charI ' '
          | none => aFrame.chars.getD idx ' ' }

/-- C5 counterexample: a detector configured for 2×2 accepts a 3×3 frame:
`submit_frame` returns `Ok` with the mismatched buffer stored — there is
no `InvalidDimensions` failure anywhere in `submit_frame`. -/
theorem submit_frame_no_dimension_check :
    EdgeDetectorState.submitFrame ⟨2, 2, 20, [], false⟩ ⟨3, 3, 3, List.replicate 27 0⟩
      = .ok ⟨2, 2, 20, List.replicate 27 0, true⟩ := rfl

/-- C5 (amended): submitting a frame whose dimensions differ from the
configured ones does not fail: `submit_frame` unconditionally returns
`Ok`, storing the frame's bytes and raising the new-frame flag. -/
theorem submit_frame_accepts_mismatched (d : EdgeDetectorState) (frame : ImageFrame)
    (_hdiff : frame.w ≠ d.w ∨ frame.h ≠ d.h) :
    d.submitFrame frame =
      .ok { d with frameBuffer := frame.buffer, newFrameAvailable := true } := rfl

theorem submit_frame_accepts_mismatched_witness :
    EdgeDetectorState.submitFrame ⟨4, 4, 20, [1, 2], false⟩ ⟨5, 4, 3, [7]⟩
      = .ok ⟨4, 4, 20, [7], true⟩ :=
  submit_frame_accepts_mismatched ⟨4, 4, 20, [1, 2], false⟩ ⟨5, 4, 3, [7]⟩
    (by decide)

theorem getD_range_map {β : Type} (n : Nat) (f : Nat → β) (d : β) (i : Nat)
    (h : i < n) : ((List.range n).map f).getD i d = f i := by
  rw [List.getD_eq_getElem?_getD, List.getElem?_map, List.getElem?_range h]
  rfl

theorem ratTrunc_eval (q : ℚ) (k : ℤ) (h0 : 0 ≤ q) (hk : ⌊q⌋ = k) :
    ratTrunc q = k := by
  rw [ratTrunc, if_pos h0, hk]

theorem ratTrunc_eval_neg (q : ℚ) (k : ℤ) (h0 : ¬ 0 ≤ q) (hk : ⌊-q⌋ = k) :
    ratTrunc q = -k := by
  rw [ratTrunc, if_neg h0, hk]

theorem rustRem_eval (a b : ℚ) (k : ℤ) (h0 : 0 ≤ a / b) (hk : ⌊a / b⌋ = k) :
    rustRem a b = a - b * k := by
  rw [rustRem, ratTrunc_eval _ k h0 hk]

theorem rustRem_eval_neg (a b : ℚ) (k : ℤ) (h0 : ¬ 0 ≤ a / b) (hk : ⌊-(a / b)⌋ = k) :
    rustRem a b = a + b * k := by
  rw [rustRem, ratTrunc_eval_neg _ k h0 hk]
  push_cast
  ring

theorem ratToUsize_min_natCast (q : ℚ) (c : Nat) :
    ratToUsize (min q (c : ℚ)) = min (ratToUsize q) c := by
  rw [ratToUsize, ratToUsize]
  rcases le_total q (c : ℚ) with h | h
  · rw [min_eq_left h]
    have hfl : ⌊q⌋ ≤ (c : ℤ) := by
      have := Int.floor_le_floor h
      rwa [Int.floor_natCast] at this
    omega
  · rw [min_eq_right h]
    have hfl : (c : ℤ) ≤ ⌊q⌋ := by
      have := Int.floor_le_floor h
      rwa [Int.floor_natCast] at this
    rw [Int.floor_natCast]
    omega

/-- C3 (amended): the glyph index is computed once against the HORIZONTAL
family's length — `⌊(magnitude/255)·|horizontal|⌋` clamped to
`|horizontal|−1` — and the binned family only re-clamps (never rescales)
that index to its own length.  The original claim's per-family index
fails; see the counterexample. -/
theorem angle_to_edge_family_selection (conv : AsciiConverter) (angle magnitude : ℚ) :
    (let d := rustRem (rustRem (toDegrees angle) 180 + 180) 180
     let base := min (Int.toNat ⌊magnitude / 255 * (conv.asciiHorizontal.length : ℚ)⌋)
       (conv.asciiHorizontal.length - 1)
     ((0 ≤ d ∧ d < 22.5) ∨ (157.5 ≤ d ∧ d < 180) →
        conv.angleToEdge angle magnitude =
          conv.asciiHorizontal.getD (min base (conv.asciiHorizontal.length - 1)) ' ') ∧
     (22.5 ≤ d ∧ d < 67.5 →
        conv.angleToEdge angle magnitude =
          conv.asciiForward.getD (min base (conv.asciiForward.length - 1)) ' ') ∧
     (67.5 ≤ d ∧ d < 112.5 →
        conv.angleToEdge angle magnitude =
          conv.asciiVertical.getD (min base (conv.asciiVertical.length - 1)) ' ') ∧
     (112.5 ≤ d ∧ d < 157.5 →
        conv.angleToEdge angle magnitude =
          conv.asciiBack.getD (min base (conv.asciiBack.length - 1)) ' ')) := by
  intro d base
  have hbase : ratToUsize
      (min ((magnitude / 255) * (conv.asciiHorizontal.length : ℚ))
        ((conv.asciiHorizontal.length - 1 : Nat) : ℚ)) = base := by
    rw [ratToUsize_min_natCast]
    rfl
  refine ⟨fun hbin => ?_, fun hbin => ?_, fun hbin => ?_, fun hbin => ?_⟩
  · rw [AsciiConverter.angleToEdge, if_pos hbin, hbase]
  · rw [AsciiConverter.angleToEdge, if_neg ?_, if_pos hbin, hbase]
    rintro (⟨h1, h2⟩ | ⟨h1, h2⟩) <;> [linarith [hbin.1]; linarith [hbin.2]]
  · rw [AsciiConverter.angleToEdge, if_neg ?_, if_neg ?_, if_pos hbin, hbase]
    · rintro ⟨h1, h2⟩
      linarith [hbin.1]
    · rintro (⟨h1, h2⟩ | ⟨h1, h2⟩) <;> [linarith [hbin.1]; linarith [hbin.2]]
  · rw [AsciiConverter.angleToEdge, if_neg ?_, if_neg ?_, if_neg ?_, hbase]
    · rintro ⟨h1, h2⟩
      linarith [hbin.2]
    · rintro ⟨h1, h2⟩
      linarith [hbin.1]
    · rintro (⟨h1, h2⟩ | ⟨h1, h2⟩) <;> [linarith [hbin.1]; linarith [hbin.2]]

theorem angle_to_edge_family_selection_witness :
    AsciiConverter.default.angleToEdge 0 100 = '│' := by
  have hd : rustRem (rustRem (toDegrees (0 : ℚ)) 180 + 180) 180 = 0 := by
    have h1 : toDegrees (0 : ℚ) = 0 := by norm_num [toDegrees]
    have h2 : rustRem (0 : ℚ) 180 = 0 := by
      rw [rustRem_eval 0 180 0 (by norm_num) (by norm_num)]
      norm_num
    rw [h1, h2,
      rustRem_eval (0 + 180) 180 1 (by norm_num) (by norm_num [Int.floor_eq_iff])]
    norm_num
  have happ := (angle_to_edge_family_selection AsciiConverter.default 0 100).1
    (by rw [hd]; norm_num)
  rw [happ]
  have hfl : ⌊(100 : ℚ) / 255 * (AsciiConverter.default.asciiHorizontal.length : ℚ)⌋
      = 1 := by
    norm_num [AsciiConverter.default, Int.floor_eq_iff]
  rw [hfl]
  rfl

/-- C3, the claim's reading (reference definition following the claim's
words): the index is computed from the SELECTED family's own length,
`⌊(magnitude/255)·|family|⌋` clamped to `|family|−1`. -/
def angleToEdgeSpec (conv : AsciiConverter) (angle magnitude : ℚ) : Char :=
  let angleD := rustRem (rustRem (toDegrees angle) 180 + 180) 180
  if (0 ≤ angleD ∧ angleD < 22.5) ∨ (157.5 ≤ angleD ∧ angleD < 180) then
    conv.asciiHorizontal.getD
      (min (ratToUsize ((magnitude / 255) * (conv.asciiHorizontal.length : ℚ)))
        (conv.asciiHorizontal.length - 1)) ' '
  else if 22.5 ≤ angleD ∧ angleD < 67.5 then
    conv.asciiForward.getD
      (min (ratToUsize ((magnitude / 255) * (conv.asciiForward.length : ℚ)))
        (conv.asciiForward.length - 1)) ' '
  else if 67.5 ≤ angleD ∧ angleD < 112.5 then
    conv.asciiVertical.getD
      (min (ratToUsize ((magnitude / 255) * (conv.asciiVertical.length : ℚ)))
        (conv.asciiVertical.length - 1)) ' '
  else
    conv.asciiBack.getD
      (min (ratToUsize ((magnitude / 255) * (conv.asciiBack.length : ℚ)))
        (conv.asciiBack.length - 1)) ' '

/-- C3 counterexample configuration: a one-glyph horizontal family next
to a three-glyph vertical family. -/
def c3Conv : AsciiConverter :=
  { AsciiConverter.default with
      asciiHorizontal := ['|']
      asciiVertical := ['-', '=', '#'] }

/-- C3 counterexample: at a vertical-bin angle (`3/2` rad ≈ 85.9°) and
magnitude 255, the code indexes with the horizontal family's length
(index `min(⌊1·1⌋, 0) = 0`, glyph `'-'`), while the claim's per-family
index would be `min(⌊1·3⌋, 2) = 2`, glyph `'#'`. -/
theorem angle_to_edge_ignores_family_length :
    c3Conv.angleToEdge (3 / 2) 255 = '-' ∧
    angleToEdgeSpec c3Conv (3 / 2) 255 = '#' ∧
    ('-' : Char) ≠ '#' := by
  have hd : rustRem (rustRem (toDegrees (3 / 2 : ℚ)) 180 + 180) 180
      = 1408101 / 16384 := by
    have h1 : toDegrees (3 / 2 : ℚ) = 1408101 / 16384 := by
      norm_num [toDegrees, degPerRad]
    have h2 : rustRem (1408101 / 16384 : ℚ) 180 = 1408101 / 16384 := by
      rw [rustRem_eval (1408101 / 16384) 180 0 (by norm_num)
        (by norm_num [Int.floor_eq_iff])]
      norm_num
    rw [h1, h2,
      rustRem_eval (1408101 / 16384 + 180) 180 1 (by norm_num)
        (by norm_num [Int.floor_eq_iff])]
    norm_num
  refine ⟨?_, ?_, by decide⟩
  · simp only [AsciiConverter.angleToEdge, hd]
    rw [if_neg (by norm_num), if_neg (by norm_num), if_pos (by norm_num)]
    have hchar : ratToUsize
        (min ((255 / 255 : ℚ) * (c3Conv.asciiHorizontal.length : ℚ))
          ((c3Conv.asciiHorizontal.length - 1 : Nat) : ℚ)) = 0 := by
      have : (min ((255 / 255 : ℚ) * (c3Conv.asciiHorizontal.length : ℚ))
          ((c3Conv.asciiHorizontal.length - 1 : Nat) : ℚ)) = 0 := by
        norm_num [c3Conv, AsciiConverter.default]
      rw [ratToUsize, this]
      norm_num
    rw [hchar]
    rfl
  · simp only [angleToEdgeSpec, hd]
    rw [if_neg (by norm_num), if_neg (by norm_num), if_pos (by norm_num)]
    have hchar : ratToUsize ((255 / 255 : ℚ) * (c3Conv.asciiVertical.length : ℚ))
        = 3 := by
      rw [ratToUsize, show ((255 / 255 : ℚ) * (c3Conv.asciiVertical.length : ℚ)) = 3 by
        norm_num [c3Conv, AsciiConverter.default]]
      rw [show ⌊(3 : ℚ)⌋ = 3 from by norm_num]
      rfl
    rw [hchar]
    rfl

/-- The claim's normalization of an angle "to `[0,180)` degrees":
mathematical reduction modulo 180, always landing in `[0,180)`. -/
def claimNormDeg (a : ℚ) : ℚ :=
  toDegrees a - 180 * ⌊toDegrees a / 180⌋

/-- C6, the claim's reading of one interior NMS cell (reference
definition following the claim's words): bin the normalized angle, keep
the magnitude exactly when it is `≥ t` and `≥` both bin neighbors. -/
def nmsSpecCell (magnitude angle : List ℚ) (w : Nat) (t : ℚ) (x y : Nat) : ℚ :=
  let m := magnitude.getD (y * w + x) 0
  let d := claimNormDeg (angle.getD (y * w + x) 0)
  let keep : Nat × Nat → Nat × Nat → ℚ := fun p q =>
    if t ≤ m ∧ magnitude.getD (p.2 * w + p.1) 0 ≤ m ∧
        magnitude.getD (q.2 * w + q.1) 0 ≤ m then m
    else 0
  if (0 ≤ d ∧ d < 22.5) ∨ (157.5 ≤ d ∧ d < 180) then keep (x + 1, y) (x - 1, y)
  else if 22.5 ≤ d ∧ d < 67.5 then keep (x + 1, y - 1) (x - 1, y + 1)
  else if 67.5 ≤ d ∧ d < 112.5 then keep (x, y - 1) (x, y + 1)
  else keep (x - 1, y - 1) (x + 1, y + 1)

theorem if_keep_of_lt {A B : Prop} [Decidable A] [Decidable B] (m t : ℚ)
    (hmt : m < t) : (if t ≤ m ∧ A ∧ B then m else 0) = (0 : ℚ) := by
  rw [if_neg]
  rintro ⟨ht, _⟩
  linarith

theorem if_keep_of_ge {A : Prop} [Decidable A] (m t : ℚ) (hmt : ¬ m < t) :
    (if A then m else (0 : ℚ)) = if t ≤ m ∧ A then m else 0 := by
  by_cases hA : A
  · rw [if_pos hA, if_pos ⟨le_of_not_lt hmt, hA⟩]
  · rw [if_neg hA, if_neg]
    rintro ⟨_, hc⟩
    exact hA hc

/-- C6 (amended): for every magnitude/angle pair, threshold and pixel
`(x, y)`, PROVIDED the pixel's angle is at least `-180` degrees (every
`atan2` output is), the NMS result is `0` at border pixels, and at
interior pixels keeps the magnitude exactly when it is `≥` the threshold
and `≥` both neighbors of the claim's orientation bin for the angle
normalized to `[0,180)` degrees.  For angles below `-180` degrees the
code's `(to_degrees + 180.0) % 180.0` lands outside `[0,180)` and the
bin disagrees with the claim's; see the counterexample. -/
theorem nms_matches_bins (magnitude angle : List ℚ) (w h : Nat) (t : ℚ)
    (x y : Nat) (hx : x < w) (hy : y < h)
    (hdeg : -180 ≤ toDegrees (angle.getD (y * w + x) 0)) :
    (nonMaximumSuppression magnitude angle w h t).getD (y * w + x) 0 =
      if 1 ≤ x ∧ x + 1 < w ∧ 1 ≤ y ∧ y + 1 < h then
        nmsSpecCell magnitude angle w t x y
      else 0 := by
  have hw0 : 0 < w := lt_of_le_of_lt (Nat.zero_le x) hx
  have hi : y * w + x < w * h := by
    calc y * w + x < y * w + w := by omega
    _ = (y + 1) * w := by ring
    _ ≤ h * w := Nat.mul_le_mul_right w (Nat.succ_le_of_lt hy)
    _ = w * h := Nat.mul_comm h w
  rw [nonMaximumSuppression, getD_range_map _ _ _ _ hi]
  have hxm : (y * w + x) % w = x := by
    rw [Nat.add_comm, Nat.add_mul_mod_self_right, Nat.mod_eq_of_lt hx]
  have hyd : (y * w + x) / w = y := by
    rw [Nat.add_comm, Nat.add_mul_div_right _ _ hw0, Nat.div_eq_of_lt hx]
    exact Nat.zero_add y
  simp only [hxm, hyd]
  by_cases hint : 1 ≤ x ∧ x + 1 < w ∧ 1 ≤ y ∧ y + 1 < h
  case neg => rw [if_neg hint, if_neg hint]
  case pos =>
    rw [if_pos hint, if_pos hint]
    obtain ⟨hx1, hx2, hy1, hy2⟩ := hint
    have hnorm : rustRem (toDegrees (angle.getD (y * w + x) 0) + 180) 180
        = claimNormDeg (angle.getD (y * w + x) 0) := by
      rw [claimNormDeg]
      have h0 : 0 ≤ (toDegrees (angle.getD (y * w + x) 0) + 180) / 180 := by
        apply div_nonneg
        · linarith
        · norm_num
      rw [rustRem_eval _ 180 (⌊toDegrees (angle.getD (y * w + x) 0) / 180⌋ + 1) h0 ?_]
      · push_cast
        ring
      · rw [show (toDegrees (angle.getD (y * w + x) 0) + 180) / 180
            = toDegrees (angle.getD (y * w + x) 0) / 180 + 1 by ring,
          Int.floor_add_one]
    simp only [nmsSpecCell, hnorm]
    by_cases hmt : magnitude.getD (y * w + x) 0 < t
    · rw [if_pos hmt]
      simp only [if_keep_of_lt _ _ hmt, ite_self]
    · rw [if_neg hmt]
      set D := claimNormDeg (angle.getD (y * w + x) 0) with hD
      by_cases hb1 : (0 ≤ D ∧ D < 22.5) ∨ (157.5 ≤ D ∧ D < 180)
      · rw [if_pos hb1, if_pos hb1]
        dsimp only
        rw [if_pos (by omega : x + 1 < w ∧ y < h),
          if_pos (by omega : x - 1 < w ∧ y < h), if_keep_of_ge _ _ hmt]
      · rw [if_neg hb1, if_neg hb1]
        by_cases hb2 : 22.5 ≤ D ∧ D < 67.5
        · rw [if_pos hb2, if_pos hb2]
          dsimp only
          rw [if_pos (by omega : x + 1 < w ∧ y - 1 < h),
            if_pos (by omega : x - 1 < w ∧ y + 1 < h), if_keep_of_ge _ _ hmt]
        · rw [if_neg hb2, if_neg hb2]
          by_cases hb3 : 67.5 ≤ D ∧ D < 112.5
          · rw [if_pos hb3, if_pos hb3]
            dsimp only
            rw [if_pos (by omega : x < w ∧ y - 1 < h),
              if_pos (by omega : x < w ∧ y + 1 < h), if_keep_of_ge _ _ hmt]
          · rw [if_neg hb3, if_neg hb3]
            dsimp only
            rw [if_pos (by omega : x - 1 < w ∧ y - 1 < h),
              if_pos (by omega : x + 1 < w ∧ y + 1 < h), if_keep_of_ge _ _ hmt]

/-- Witness magnitudes: a lone ridge of 10 at the center of a 3×3 grid. -/
def c6WitnessMag : List ℚ := [0, 0, 0, 0, 10, 0, 0, 0, 0]

/-- Witness angles: all zero (horizontal gradient bin). -/
def c6WitnessAng : List ℚ := [0, 0, 0, 0, 0, 0, 0, 0, 0]

theorem nms_matches_bins_witness :
    (nonMaximumSuppression c6WitnessMag c6WitnessAng 3 3 5).getD 4 0 = 10 := by
  have h := nms_matches_bins c6WitnessMag c6WitnessAng 3 3 5 1 1
    (by norm_num) (by norm_num) (by norm_num [c6WitnessAng, toDegrees, List.getD])
  rw [show (1 * 3 + 1 : Nat) = 4 from rfl] at h
  rw [h, if_pos (by omega)]
  have hd : claimNormDeg (c6WitnessAng.getD 4 0) = 0 := by
    rw [show c6WitnessAng.getD 4 0 = 0 from rfl, claimNormDeg]
    norm_num [toDegrees]
  have hd' : claimNormDeg (c6WitnessAng.getD (1 * 3 + 1) 0) = 0 := hd
  simp only [nmsSpecCell, hd']
  rw [if_pos (by norm_num)]
  dsimp only
  rw [show c6WitnessMag.getD (1 * 3 + 1) 0 = 10 from rfl,
    show c6WitnessMag.getD (1 * 3 + (1 + 1)) 0 = 0 from rfl,
    show c6WitnessMag.getD (1 * 3 + (1 - 1)) 0 = 0 from rfl,
    if_pos (by norm_num)]

/-- C6 counterexample magnitudes: center 10, upper-left and lower-right
diagonal neighbors 20, left/right neighbors 0. -/
def c6CounterMag : List ℚ := [20, 0, 0, 0, 10, 0, 0, 0, 20]

/-- C6 counterexample angles: the center angle is `-6.11` rad ≈ `-350.1`
degrees, i.e. below `-180` degrees (outside atan2's range). -/
def c6CounterAng : List ℚ := [0, 0, 0, 0, -611 / 100, 0, 0, 0, 0]

/-- C6 counterexample: at an angle of ≈ `-350.1` degrees the claim's
normalization to `[0,180)` gives ≈ `9.9` (horizontal bin — neighbors 0,
keep the 10), but the code's `(to_degrees + 180.0) % 180.0` gives
≈ `-170.1`, which falls through every bin test into the back-diagonal
branch (neighbors 20, suppress).  The code returns 0 where the claim
requires 10. -/
theorem nms_out_of_range_angle_mismatch :
    (nonMaximumSuppression c6CounterMag c6CounterAng 3 3 5).getD 4 0 = 0 ∧
    nmsSpecCell c6CounterMag c6CounterAng 3 5 1 1 = 10 ∧
    toDegrees (c6CounterAng.getD 4 0) < -180 := by
  have ht : toDegrees (-611 / 100 : ℚ) = -286783237 / 819200 := by
    norm_num [toDegrees, degPerRad]
  have hrem : rustRem (toDegrees (c6CounterAng.getD 4 0) + 180) 180
      = -139327237 / 819200 := by
    rw [show c6CounterAng.getD 4 0 = -611 / 100 from rfl, ht,
      show (-286783237 / 819200 + 180 : ℚ) = -139327237 / 819200 by norm_num,
      rustRem_eval_neg (-139327237 / 819200) 180 0 (by norm_num)
        (by norm_num [Int.floor_eq_iff])]
    norm_num
  refine ⟨?_, ?_, ?_⟩
  · rw [nonMaximumSuppression, getD_range_map _ _ _ 4 (by norm_num)]
    dsimp only
    rw [show c6CounterMag.getD 4 0 = 10 from rfl]
    rw [if_pos (by norm_num), if_neg (by norm_num), hrem]
    have hb1 : ¬((0 ≤ (-139327237 / 819200 : ℚ) ∧ (-139327237 / 819200 : ℚ) < 22.5) ∨
        (157.5 ≤ (-139327237 / 819200 : ℚ) ∧ (-139327237 / 819200 : ℚ) < 180)) := by
      norm_num
    have hb2 : ¬(22.5 ≤ (-139327237 / 819200 : ℚ) ∧ (-139327237 / 819200 : ℚ) < 67.5) := by
      norm_num
    have hb3 : ¬(67.5 ≤ (-139327237 / 819200 : ℚ) ∧ (-139327237 / 819200 : ℚ) < 112.5) := by
      norm_num
    rw [if_neg hb1, if_neg hb2, if_neg hb3]
    dsimp only
    rw [if_pos (by omega : 4 % 3 - 1 < 3 ∧ 4 / 3 - 1 < 3),
      if_pos (by omega : 4 % 3 + 1 < 3 ∧ 4 / 3 + 1 < 3),
      show c6CounterMag.getD ((4 / 3 - 1) * 3 + (4 % 3 - 1)) 0 = 20 from rfl,
      show c6CounterMag.getD ((4 / 3 + 1) * 3 + (4 % 3 + 1)) 0 = 20 from rfl,
      if_neg (by norm_num : ¬((20 : ℚ) ≤ 10 ∧ (20 : ℚ) ≤ 10))]
  · have hd : claimNormDeg (c6CounterAng.getD (1 * 3 + 1) 0) = 8128763 / 819200 := by
      rw [show c6CounterAng.getD (1 * 3 + 1) 0 = -611 / 100 from rfl, claimNormDeg, ht,
        show ⌊(-286783237 / 819200 : ℚ) / 180⌋ = -2 by norm_num [Int.floor_eq_iff]]
      norm_num
    simp only [nmsSpecCell, hd]
    rw [if_pos (by norm_num)]
    dsimp only
    rw [show c6CounterMag.getD (1 * 3 + 1) 0 = 10 from rfl,
      show c6CounterMag.getD (1 * 3 + (1 + 1)) 0 = 0 from rfl,
      show c6CounterMag.getD (1 * 3 + (1 - 1)) 0 = 0 from rfl]
    rw [if_pos (by norm_num)]
  · rw [show c6CounterAng.getD 4 0 = -611 / 100 from rfl, ht]
    norm_num

/-- An all-black RGB frame: every buffer byte 0. -/
def blackFrame (w h : Nat) : ImageFrame :=
  { w := w, h := h, bytesPerPixel := 3, buffer := List.replicate (w * h * 3) 0 }

theorem getD_replicate {β : Type} (n i : Nat) (a : β) :
    (List.replicate n a).getD i a = a := by
  rcases Nat.lt_or_ge i n with hlt | hge
  · rw [List.getD_eq_getElem?_getD, List.getElem?_replicate, if_pos hlt]
    rfl
  · rw [List.getD_eq_getElem?_getD, List.getElem?_eq_none (by simpa using hge)]
    rfl

theorem getD_range_map_ge {β : Type} (n : Nat) (f : Nat → β) (d : β) (i : Nat)
    (h : n ≤ i) : ((List.range n).map f).getD i d = d := by
  rw [List.getD_eq_getElem?_getD, List.getElem?_eq_none (by simpa using h)]
  rfl

theorem index_lt_of_coords (w h x y : Nat) (hx : x < w) (hy : y < h) :
    y * w + x < w * h := by
  calc y * w + x < y * w + w := by omega
  _ = (y + 1) * w := by ring
  _ ≤ h * w := Nat.mul_le_mul_right w (Nat.succ_le_of_lt hy)
  _ = w * h := Nat.mul_comm h w

theorem blackFrame_getPixel_eq (w h x y : Nat) (hx : x < w) (hy : y < h) :
    (blackFrame w h).getPixel x y = some (0, 0, 0) := by
  rw [ImageFrame.getPixel]
  rw [if_neg (by dsimp [blackFrame]; omega)]
  have hidx : y * w + x < w * h := index_lt_of_coords w h x y hx hy
  rw [if_neg (by dsimp [blackFrame]; simp only [List.length_replicate]; omega)]
  dsimp [blackFrame]
  rw [getD_replicate, getD_replicate, getD_replicate]
  rfl

theorem ratToUsize_lt (q : ℚ) (n : Nat) (hn : 0 < n) (hq : q < (n : ℚ)) :
    ratToUsize q < n := by
  have hfl : ⌊q⌋ < (n : ℤ) := by
    rw [Int.floor_lt]
    exact_mod_cast hq
  rw [ratToUsize]
  omega

theorem sobelGx_zero (l : List ℚ) (w h : Nat) (hl : ∀ i, l.getD i 0 = 0) :
    ∀ i, (sobelGx l w h).getD i 0 = 0 := by
  intro i
  rcases Nat.lt_or_ge i (w * h) with hi | hi
  · rw [sobelGx, getD_range_map _ _ _ _ hi]
    dsimp only
    split
    · simp only [hl]
      norm_num
    · rfl
  · rw [sobelGx, getD_range_map_ge _ _ _ _ hi]

theorem sobelGy_zero (l : List ℚ) (w h : Nat) (hl : ∀ i, l.getD i 0 = 0) :
    ∀ i, (sobelGy l w h).getD i 0 = 0 := by
  intro i
  rcases Nat.lt_or_ge i (w * h) with hi | hi
  · rw [sobelGy, getD_range_map _ _ _ _ hi]
    dsimp only
    split
    · simp only [hl]
      norm_num
    · rfl
  · rw [sobelGy, getD_range_map_ge _ _ _ _ hi]

theorem nms_zero (mag ang : List ℚ) (w h : Nat) (t : ℚ)
    (hmag : ∀ i, mag.getD i 0 = 0) (ht : 0 < t) :
    ∀ i, (nonMaximumSuppression mag ang w h t).getD i 0 = 0 := by
  intro i
  rcases Nat.lt_or_ge i (w * h) with hi | hi
  · rw [nonMaximumSuppression, getD_range_map _ _ _ _ hi]
    dsimp only
    split
    · rw [hmag i, if_pos ht]
    · rfl
  · rw [nonMaximumSuppression, getD_range_map_ge _ _ _ _ hi]

theorem blackFrame_intensity_zero (w h : Nat) :
    ∀ i, (createIntensityMap (blackFrame w h)).getD i 0 = 0 := by
  intro i
  rcases Nat.lt_or_ge i (w * h) with hi | hi
  · rw [createIntensityMap,
      getD_range_map _ _ _ _ (show i < (blackFrame w h).w * (blackFrame w h).h from hi)]
    rcases Nat.lt_or_ge (i % w) w with hx | hx
    · rcases Nat.lt_or_ge (i / w) h with hy | hy
      · rw [show (blackFrame w h).getPixel (i % (blackFrame w h).w)
            (i / (blackFrame w h).w) = some (0, 0, 0) from
          blackFrame_getPixel_eq w h _ _ hx hy]
        norm_num [calculateIntensity, R_LUMINANCE, G_LUMINANCE, B_LUMINANCE]
      · rw [show (blackFrame w h).getPixel (i % (blackFrame w h).w)
            (i / (blackFrame w h).w) = none from by
          rw [ImageFrame.getPixel]
          dsimp only [blackFrame]
          rw [if_pos (Or.inr hy)]]
    · rw [show (blackFrame w h).getPixel (i % (blackFrame w h).w)
          (i / (blackFrame w h).w) = none from by
        rw [ImageFrame.getPixel]
        dsimp only [blackFrame]
        rw [if_pos (Or.inl hx)]]
  · rw [createIntensityMap,
      getD_range_map_ge _ _ _ _ (show (blackFrame w h).w * (blackFrame w h).h ≤ i from hi)]

theorem default_adjustChannel_zero :
    AsciiConverter.default.adjustChannel 0 = 0 := by
  rw [AsciiConverter.adjustChannel]
  rw [show (((0 : Nat) : ℚ) / 255 - 0.5) * AsciiConverter.default.contrast + 0.5 +
      AsciiConverter.default.brightness = -(1 / 4) by
    norm_num [AsciiConverter.default]]
  rw [show max (-(1 / 4) : ℚ) 0 = 0 from max_eq_right (by norm_num)]
  rw [show min (0 : ℚ) 1 * 255 = 0 by norm_num]
  rw [ratToU8, Int.floor_zero]
  rfl

/-- C9: the full data path on an all-black frame under the default
configuration: every pixel of the pipeline's suppressed magnitude map is
0 (so no output cell is edge-classified), and the converter produces the
shading family's first glyph at every output cell.  `ops.sqrt 0 = 0` is
the only fact used about the `f32` operations (exact for `f32::sqrt`). -/
theorem black_frame_pipeline (ops : FloatOps) (w h wa ha : Nat) (prevChars : List Char)
    (hsqrt : ops.sqrt 0 = 0) (hw : 0 < w) (hh : 0 < h) (hwa : 0 < wa) (hha : 0 < ha) :
    (∀ i, (EdgeDetector.processFrame ops (blackFrame w h) 20).1.getD i 0 = 0) ∧
    (AsciiConverter.default.convert (blackFrame w h)
        ⟨(EdgeDetector.processFrame ops (blackFrame w h) 20).1,
         (EdgeDetector.processFrame ops (blackFrame w h) 20).2, w, h⟩
        ⟨wa, ha, prevChars⟩).chars
      = List.replicate (wa * ha) (AsciiConverter.default.asciiIntensity.getD 0 ' ') := by
  have hgx := sobelGx_zero (createIntensityMap (blackFrame w h)) w h
    (blackFrame_intensity_zero w h)
  have hgy := sobelGy_zero (createIntensityMap (blackFrame w h)) w h
    (blackFrame_intensity_zero w h)
  have hrawmag : ∀ i, ((List.range ((blackFrame w h).w * (blackFrame w h).h)).map fun i =>
      ops.sqrt ((sobelGx (createIntensityMap (blackFrame w h)) (blackFrame w h).w
          (blackFrame w h).h).getD i 0 *
        (sobelGx (createIntensityMap (blackFrame w h)) (blackFrame w h).w
          (blackFrame w h).h).getD i 0 +
        (sobelGy (createIntensityMap (blackFrame w h)) (blackFrame w h).w
          (blackFrame w h).h).getD i 0 *
        (sobelGy (createIntensityMap (blackFrame w h)) (blackFrame w h).w
          (blackFrame w h).h).getD i 0)).getD i 0 = 0 := by
    intro i
    rcases Nat.lt_or_ge i ((blackFrame w h).w * (blackFrame w h).h) with hi | hi
    · rw [getD_range_map _ _ _ _ hi]
      rw [show (blackFrame w h).w = w from rfl, show (blackFrame w h).h = h from rfl,
        hgx i, hgy i]
      rw [show (0 : ℚ) * 0 + 0 * 0 = 0 by norm_num, hsqrt]
    · rw [getD_range_map_ge _ _ _ _ hi]
  have hmagzero : ∀ i,
      (EdgeDetector.processFrame ops (blackFrame w h) 20).1.getD i 0 = 0 := by
    intro i
    rw [EdgeDetector.processFrame]
    exact nms_zero _ _ _ _ _ (fun j => hrawmag j) (by norm_num) i
  refine ⟨hmagzero, ?_⟩
  rw [AsciiConverter.convert]
  rw [List.eq_replicate_iff]
  constructor
  · simp
  · intro b hb
    obtain ⟨idx, hidx, rfl⟩ := List.mem_map.1 hb
    have hidxlt : idx < wa * ha := by
      have := List.mem_range.1 hidx
      simpa using this
    dsimp only
    rw [if_neg ?hedge]
    case hedge =>
      rintro ⟨_, h20⟩
      rw [hmagzero _] at h20
      norm_num [AsciiConverter.default] at h20
    have hxlt : idx % wa < wa := Nat.mod_lt idx hwa
    have hylt : idx / wa < ha := by
      rw [Nat.div_lt_iff_lt_mul hwa]
      calc idx < wa * ha := hidxlt
      _ = ha * wa := Nat.mul_comm wa ha
    have hwa0 : ((wa : ℚ)) ≠ 0 := by
      exact_mod_cast Nat.pos_iff_ne_zero.mp hwa
    have hha0 : ((ha : ℚ)) ≠ 0 := by
      exact_mod_cast Nat.pos_iff_ne_zero.mp hha
    have hiX : ratToUsize (((idx % wa : Nat) : ℚ) *
        (((blackFrame w h).w : ℚ) / (wa : ℚ))) < w := by
      apply ratToUsize_lt _ _ hw
      rw [show ((blackFrame w h).w : ℚ) = (w : ℚ) from rfl]
      have hxq : ((idx % wa : Nat) : ℚ) < ((wa : Nat) : ℚ) := by exact_mod_cast hxlt
      have hpos : (0 : ℚ) < (w : ℚ) / (wa : ℚ) := by
        apply div_pos
        · exact_mod_cast hw
        · exact_mod_cast hwa
      calc ((idx % wa : Nat) : ℚ) * ((w : ℚ) / (wa : ℚ))
          < ((wa : Nat) : ℚ) * ((w : ℚ) / (wa : ℚ)) := by
            exact mul_lt_mul_of_pos_right hxq hpos
      _ = (w : ℚ) := by
            field_simp
    have hiY : ratToUsize (((idx / wa : Nat) : ℚ) *
        (((blackFrame w h).h : ℚ) / (ha : ℚ))) < h := by
      apply ratToUsize_lt _ _ hh
      rw [show ((blackFrame w h).h : ℚ) = (h : ℚ) from rfl]
      have hyq : ((idx / wa : Nat) : ℚ) < ((ha : Nat) : ℚ) := by exact_mod_cast hylt
      have hpos : (0 : ℚ) < (h : ℚ) / (ha : ℚ) := by
        apply div_pos
        · exact_mod_cast hh
        · exact_mod_cast hha
      calc ((idx / wa : Nat) : ℚ) * ((h : ℚ) / (ha : ℚ))
          < ((ha : Nat) : ℚ) * ((h : ℚ) / (ha : ℚ)) := by
            exact mul_lt_mul_of_pos_right hyq hpos
      _ = (h : ℚ) := by
            field_simp
    rw [blackFrame_getPixel_eq w h _ _ hiX hiY]
    dsimp only
    rw [show AsciiConverter.default.adjustPixel (0, 0, 0) = (0, 0, 0) by
      rw [AsciiConverter.adjustPixel]
      dsimp only
      rw [default_adjustChannel_zero]]
    rw [show calculateIntensityU8 (0, 0, 0) = 0 by
      rw [calculateIntensityU8,
        show calculateIntensity (0, 0, 0) = 0 by
          norm_num [calculateIntensity, R_LUMINANCE, G_LUMINANCE, B_LUMINANCE],
        ratToU8, Int.floor_zero]
      rfl]
    rw [show ratToUsize (((0 : Nat) : ℚ) / 255 *
        (AsciiConverter.default.asciiIntensity.length : ℚ)) = 0 by
      rw [show (((0 : Nat) : ℚ) / 255 *
          (AsciiConverter.default.asciiIntensity.length : ℚ)) = 0 by norm_num,
        ratToUsize, Int.floor_zero]
      rfl]
    rfl

theorem black_frame_pipeline_witness :
    ((EdgeDetector.processFrame ⟨fun _ => 0, fun _ _ => 0⟩ (blackFrame 4 4) 20).1.getD 5 0
      = 0) ∧
    (AsciiConverter.default.convert (blackFrame 4 4)
        ⟨(EdgeDetector.processFrame ⟨fun _ => 0, fun _ _ => 0⟩ (blackFrame 4 4) 20).1,
         (EdgeDetector.processFrame ⟨fun _ => 0, fun _ _ => 0⟩ (blackFrame 4 4) 20).2,
         4, 4⟩
        ⟨2, 2, [' ', ' ', ' ', ' ']⟩).chars
      = List.replicate 4 (AsciiConverter.default.asciiIntensity.getD 0 ' ') :=
  ⟨(black_frame_pipeline ⟨fun _ => 0, fun _ _ => 0⟩ 4 4 2 2 [' ', ' ', ' ', ' ']
      rfl (by norm_num) (by norm_num) (by norm_num) (by norm_num)).1 5,
   (black_frame_pipeline ⟨fun _ => 0, fun _ _ => 0⟩ 4 4 2 2 [' ', ' ', ' ', ' ']
      rfl (by norm_num) (by norm_num) (by norm_num) (by norm_num)).2⟩

end Pinhole
